import Mathlib

/-!
# Verification of the dtle row-filtering core (`drivers/mysql/common/tabletypes.go`)

This file shallowly embeds the table/row filtering core of the dtle MySQL CDC
pipeline: the `Table`, `TableContext`, `WhereContext` data model, the predicate
compiler `NewWhereCtx` and the per-row evaluator `WhereTrue`.

The expression engine (`qlbridge`: `expr.ParseExpression`,
`expr.FindAllIdentityField`, `vm.Eval`, `datasource.NewContextSimpleNative`) and
the column metadata (`mysqlconfig.ColumnList`, `mysqlconfig.TextColumnType`) are
external to the translated source file; they are modelled from the design
specification (a small self-contained recursive-descent parser producing a
tagged expression tree, a tree-walking evaluator over a name-to-value
environment, and a column list with a lower-cased-name-to-ordinal map).
Go maps are modelled as association lists in insertion order; Go `string`
values are modelled as their byte sequences where they act as data values.
-/

set_option autoImplicit false

namespace DtleFilter

/-- A Go `interface{}` value as it occurs in a decoded row or in the
evaluation environment: `nil`, a boolean, an integer, a string (kept as its
byte sequence, as Go strings are byte strings), or a `[]byte` slice. -/
inductive GoValue where
  | vNull
  | vBool (b : Bool)
  | vInt (n : Int)
  | vStr (bs : List UInt8)
  | vBytes (bs : List UInt8)
  deriving DecidableEq, Repr

/-- UTF-8 encoding of one character (used to turn a Lean string literal into
the byte sequence of the corresponding Go string). -/
def utf8EncodeChar (c : Char) : List UInt8 :=
  let n := c.toNat
  if n < 0x80 then
    [UInt8.ofNat n]
  else if n < 0x800 then
    [UInt8.ofNat (0xC0 ||| (n >>> 6)), UInt8.ofNat (0x80 ||| (n &&& 0x3F))]
  else if n < 0x10000 then
    [UInt8.ofNat (0xE0 ||| (n >>> 12)), UInt8.ofNat (0x80 ||| ((n >>> 6) &&& 0x3F)),
     UInt8.ofNat (0x80 ||| (n &&& 0x3F))]
  else
    [UInt8.ofNat (0xF0 ||| (n >>> 18)), UInt8.ofNat (0x80 ||| ((n >>> 12) &&& 0x3F)),
     UInt8.ofNat (0x80 ||| ((n >>> 6) &&& 0x3F)), UInt8.ofNat (0x80 ||| (n &&& 0x3F))]

/-- The byte sequence of a Go string written as a Lean string literal. -/
def strBytes (s : String) : List UInt8 :=
  List.foldr (fun c acc => utf8EncodeChar c ++ acc) [] s.data

/-- Model of `strings.ToLower` (character-wise lower-casing). -/
def strToLower (s : String) : String :=
  String.mk (s.data.map Char.toLower)

/-- Whitespace test used by trimming and by the lexer. -/
def isWS (c : Char) : Bool :=
  c = ' ' || c = '\t' || c = '\n' || c = '\r'

/-- Model of `strings.TrimSpace`: drop leading and trailing whitespace. -/
def strTrim (s : String) : String :=
  String.mk (((s.data.dropWhile isWS).reverse.dropWhile isWS).reverse)

/-- Association-list lookup (models a Go map read `m[k]`). -/
def alookup {α : Type} : List (String × α) → String → Option α
  | [], _ => none
  | (k, v) :: rest, key => if k = key then some v else alookup rest key

/-- Association-list update (models a Go map write `m[k] = v`): replaces the
binding of `k` if present, appends it otherwise (insertion order kept). -/
def assocSet {α : Type} : List (String × α) → String → α → List (String × α)
  | [], k, v => [(k, v)]
  | (k0, v0) :: rest, k, v =>
    if k0 = k then (k, v) :: rest else (k0, v0) :: assocSet rest k v

/-! ## Expression language

Modelled from the spec: the embedded expression engine (qlbridge in the
original) is reimplemented as a small self-contained recursive-descent parser
producing an expression tree of tagged variants (literal, identifier,
unary-not, binary comparison, binary logical) plus a tree-walking evaluator
taking a name-to-value environment.  Mirroring the qlbridge limitation noted
in the translated source, the bare words `true` / `false` lex as identifiers
(so they show up in identifier extraction) and the evaluator special-cases
identifiers whose case-folded text is `true` / `false` as boolean constants. -/

/-- Binary operators of the expression language. -/
inductive BinOp where
  | opEq | opNe | opLt | opLe | opGt | opGe | opAnd | opOr
  deriving DecidableEq, Repr

/-- Modelled from the spec: the expression tree (`expr.Node` in the original)
with tagged variants literal / identifier / unary-not / binary. -/
inductive Node where
  | lit (v : GoValue)
  | ident (text : String)
  | notNode (e : Node)
  | binOp (op : BinOp) (a b : Node)
  deriving DecidableEq, Repr

/-- Lexer tokens. -/
inductive Tok where
  | idTok (s : String)
  | strTok (s : String)
  | numTok (n : Nat)
  | opTok (s : String)
  | lparen
  | rparen
  deriving DecidableEq, Repr

/-- First character of an identifier. -/
def isIdentStart (c : Char) : Bool := c.isAlpha || c = '_'

/-- Subsequent character of an identifier. -/
def isIdentChar (c : Char) : Bool := c.isAlphanum || c = '_'

/-- Digits of a numeral to a natural number (most significant first). -/
def digitsToNat (ds : List Char) : Nat :=
  ds.foldl (fun acc c => acc * 10 + (c.toNat - 48)) 0

/-- Fueled lexer over the character list of the expression string. -/
def lexFuel : Nat → List Char → Except String (List Tok)
  | 0, _ => .error "lexer out of fuel"
  | _ + 1, [] => .ok []
  | fuel + 1, c :: cs =>
    if isWS c then
      lexFuel fuel cs
    else if isIdentStart c then
      let word := c :: cs.takeWhile isIdentChar
      match lexFuel fuel (cs.dropWhile isIdentChar) with
      | .error e => .error e
      | .ok ts => .ok (.idTok (String.mk word) :: ts)
    else if c.isDigit then
      let ds := c :: cs.takeWhile Char.isDigit
      match lexFuel fuel (cs.dropWhile Char.isDigit) with
      | .error e => .error e
      | .ok ts => .ok (.numTok (digitsToNat ds) :: ts)
    else if c = '\'' then
      let content := cs.takeWhile (fun d => !(d = '\''))
      match cs.dropWhile (fun d => !(d = '\'')) with
      | '\'' :: rest =>
        match lexFuel fuel rest with
        | .error e => .error e
        | .ok ts => .ok (.strTok (String.mk content) :: ts)
      | _ => .error "unterminated string literal"
    else if c = '(' then
      match lexFuel fuel cs with
      | .error e => .error e
      | .ok ts => .ok (.lparen :: ts)
    else if c = ')' then
      match lexFuel fuel cs with
      | .error e => .error e
      | .ok ts => .ok (.rparen :: ts)
    else if c = '=' then
      match cs with
      | '=' :: rest =>
        match lexFuel fuel rest with
        | .error e => .error e
        | .ok ts => .ok (.opTok "=" :: ts)
      | _ =>
        match lexFuel fuel cs with
        | .error e => .error e
        | .ok ts => .ok (.opTok "=" :: ts)
    else if c = '!' then
      match cs with
      | '=' :: rest =>
        match lexFuel fuel rest with
        | .error e => .error e
        | .ok ts => .ok (.opTok "!=" :: ts)
      | _ => .error "unexpected character after bang"
    else if c = '<' then
      match cs with
      | '=' :: rest =>
        match lexFuel fuel rest with
        | .error e => .error e
        | .ok ts => .ok (.opTok "<=" :: ts)
      | _ =>
        match lexFuel fuel cs with
        | .error e => .error e
        | .ok ts => .ok (.opTok "<" :: ts)
    else if c = '>' then
      match cs with
      | '=' :: rest =>
        match lexFuel fuel rest with
        | .error e => .error e
        | .ok ts => .ok (.opTok ">=" :: ts)
      | _ =>
        match lexFuel fuel cs with
        | .error e => .error e
        | .ok ts => .ok (.opTok ">" :: ts)
    else
      .error "unexpected character"

/-- Tokenize an expression string. -/
def lexTokens (s : String) : Except String (List Tok) :=
  lexFuel (s.data.length + 1) s.data

/-- Comparison token to operator. -/
def cmpOpOf (s : String) : Option BinOp :=
  if s = "=" then some .opEq
  else if s = "!=" then some .opNe
  else if s = "<" then some .opLt
  else if s = "<=" then some .opLe
  else if s = ">" then some .opGt
  else if s = ">=" then some .opGe
  else none

mutual

/-- The `or` level of the recursive-descent grammar. -/
def parseOr : Nat → List Tok → Except String (Node × List Tok)
  | 0, _ => .error "out of fuel"
  | fuel + 1, ts =>
    match parseAnd fuel ts with
    | .error e => .error e
    | .ok (left, rest) => parseOrRest fuel left rest

/-- Remaining `or` clauses. -/
def parseOrRest : Nat → Node → List Tok → Except String (Node × List Tok)
  | 0, _, _ => .error "out of fuel"
  | fuel + 1, left, ts =>
    match ts with
    | .idTok s :: rest =>
      if strToLower s = "or" then
        match parseAnd fuel rest with
        | .error e => .error e
        | .ok (right, rest2) => parseOrRest fuel (.binOp .opOr left right) rest2
      else .ok (left, ts)
    | _ => .ok (left, ts)

/-- The `and` level of the grammar. -/
def parseAnd : Nat → List Tok → Except String (Node × List Tok)
  | 0, _ => .error "out of fuel"
  | fuel + 1, ts =>
    match parseNot fuel ts with
    | .error e => .error e
    | .ok (left, rest) => parseAndRest fuel left rest

/-- Remaining `and` clauses. -/
def parseAndRest : Nat → Node → List Tok → Except String (Node × List Tok)
  | 0, _, _ => .error "out of fuel"
  | fuel + 1, left, ts =>
    match ts with
    | .idTok s :: rest =>
      if strToLower s = "and" then
        match parseNot fuel rest with
        | .error e => .error e
        | .ok (right, rest2) => parseAndRest fuel (.binOp .opAnd left right) rest2
      else .ok (left, ts)
    | _ => .ok (left, ts)

/-- The `not` level of the grammar. -/
def parseNot : Nat → List Tok → Except String (Node × List Tok)
  | 0, _ => .error "out of fuel"
  | fuel + 1, ts =>
    match ts with
    | .idTok s :: rest =>
      if strToLower s = "not" then
        match parseNot fuel rest with
        | .error e => .error e
        | .ok (e, rest2) => .ok (.notNode e, rest2)
      else parseCmp fuel ts
    | _ => parseCmp fuel ts

/-- Comparison level: a primary optionally followed by a comparison operator
and another primary. -/
def parseCmp : Nat → List Tok → Except String (Node × List Tok)
  | 0, _ => .error "out of fuel"
  | fuel + 1, ts =>
    match parsePrim fuel ts with
    | .error e => .error e
    | .ok (left, rest) =>
      match rest with
      | .opTok s :: rest2 =>
        match cmpOpOf s with
        | some op =>
          match parsePrim fuel rest2 with
          | .error e => .error e
          | .ok (right, rest3) => .ok (.binOp op left right, rest3)
        | none => .error "unknown operator"
      | _ => .ok (left, rest)

/-- Primary: parenthesized expression, literal, or identifier.  Bare `true`
and `false` stay identifiers (qlbridge limitation); `null` is a literal. -/
def parsePrim : Nat → List Tok → Except String (Node × List Tok)
  | 0, _ => .error "out of fuel"
  | fuel + 1, ts =>
    match ts with
    | .lparen :: rest =>
      match parseOr fuel rest with
      | .error e => .error e
      | .ok (e, rest2) =>
        match rest2 with
        | .rparen :: rest3 => .ok (e, rest3)
        | _ => .error "expected closing paren"
    | .strTok s :: rest => .ok (.lit (.vStr (strBytes s)), rest)
    | .numTok n :: rest => .ok (.lit (.vInt (Int.ofNat n)), rest)
    | .idTok s :: rest =>
      if strToLower s = "null" then .ok (.lit .vNull, rest)
      else .ok (.ident s, rest)
    | _ => .error "expected a primary expression"

end

/-- Modelled from the spec: `expr.ParseExpression` — parse a free-form boolean
expression string into an expression tree, or fail with a descriptive error. -/
def ParseExpression (s : String) : Except String Node :=
  match lexTokens s with
  | .error e => .error e
  | .ok ts =>
    match parseOr (ts.length * 8 + 8) ts with
    | .error e => .error e
    | .ok (node, rest) =>
      match rest with
      | [] => .ok node
      | _ => .error "trailing tokens after expression"

/-- Modelled from the spec: `expr.FindAllIdentityField` — every identifier
referenced in the tree, in tree order (duplicates kept). -/
def FindAllIdentityField : Node → List String
  | .lit _ => []
  | .ident t => [t]
  | .notNode e => FindAllIdentityField e
  | .binOp _ a b => FindAllIdentityField a ++ FindAllIdentityField b

/-- Lexicographic order on byte sequences (string comparison). -/
def ltBytes : List UInt8 → List UInt8 → Bool
  | [], [] => false
  | [], _ :: _ => true
  | _ :: _, [] => false
  | a :: as, b :: bs => if a < b then true else if b < a then false else ltBytes as bs

/-- Evaluate a binary operator on two values; `none` signals an evaluation
failure (e.g. ordering on incomparable kinds). -/
def evalBin (op : BinOp) (va vb : GoValue) : Option GoValue :=
  match op with
  | .opEq => some (.vBool (va = vb))
  | .opNe => some (.vBool (!(va = vb : Bool)))
  | .opAnd =>
    match va, vb with
    | .vBool a, .vBool b => some (.vBool (a && b))
    | _, _ => none
  | .opOr =>
    match va, vb with
    | .vBool a, .vBool b => some (.vBool (a || b))
    | _, _ => none
  | .opLt =>
    match va, vb with
    | .vInt a, .vInt b => some (.vBool (a < b : Bool))
    | .vStr a, .vStr b => some (.vBool (ltBytes a b))
    | _, _ => none
  | .opLe =>
    match va, vb with
    | .vInt a, .vInt b => some (.vBool (a ≤ b : Bool))
    | .vStr a, .vStr b => some (.vBool (ltBytes a b || a = b))
    | _, _ => none
  | .opGt =>
    match va, vb with
    | .vInt a, .vInt b => some (.vBool (b < a : Bool))
    | .vStr a, .vStr b => some (.vBool (ltBytes b a))
    | _, _ => none
  | .opGe =>
    match va, vb with
    | .vInt a, .vInt b => some (.vBool (b ≤ a : Bool))
    | .vStr a, .vStr b => some (.vBool (ltBytes b a || a = b))
    | _, _ => none

/-- Modelled from the spec: `vm.Eval` over a `NewContextSimpleNative`
environment — tree-walking evaluation against a name-to-value environment.
`none` is qlbridge's `ok = false` (evaluation failure).  Identifiers whose
case-folded text is `true`/`false` are boolean constants (qlbridge treats them
as boolean identities); any other identifier is looked up verbatim. -/
def vmEval (env : List (String × GoValue)) : Node → Option GoValue
  | .lit v => some v
  | .ident t =>
    if strToLower t = "true" then some (.vBool true)
    else if strToLower t = "false" then some (.vBool false)
    else alookup env t
  | .notNode e =>
    match vmEval env e with
    | some (.vBool b) => some (.vBool (!b))
    | _ => none
  | .binOp op a b =>
    match vmEval env a, vmEval env b with
    | some va, some vb => evalBin op va vb
    | _, _ => none

/-! ## Column metadata (mysqlconfig), modelled from the spec -/

/-- Modelled from the spec: the enumerated column kinds of
`mysqlconfig` (the declared type of a column), including the distinguished
large-text/blob kind `TextColumnType`.  Only the distinction between
`TextColumnType` and every other kind matters to the filtering core. -/
inductive ColumnType where
  | UnknownColumnType
  | TextColumnType
  | IntColumnType
  | VarcharColumnType
  | DateColumnType
  deriving DecidableEq, Repr

/-- Modelled from the spec: one `mysqlconfig.Column` — a name and a declared
type (the source field is called `Type`, a Lean keyword, hence `ColType`). -/
structure Column where
  Name : String
  ColType : ColumnType
  deriving DecidableEq, Repr

/-- Modelled from the spec: `mysqlconfig.ColumnList` — the ordered sequence of
column definitions (the receiver method `ColumnList()` of the original returns
it, here the field `Columns`) plus `Ordinals`, a mapping from lower-cased
column name to zero-based ordinal. -/
structure ColumnList where
  Columns : List Column
  Ordinals : List (String × Nat)
  deriving DecidableEq, Repr

/-! ## Data model of `tabletypes.go` -/

/-- Structure `Table` of the source.  The Go field `OriginalTableColumns` is a
`*ColumnList`; the pointer is modelled by value (a fresh table carries an
empty column list).  `UseUniqueKey` is omitted: no operation of this file
reads it. -/
structure Table where
  TableName : String := ""
  TableRegex : String := ""
  TableRename : String := ""
  TableRenameRegex : String := ""
  TableSchema : String := ""
  TableSchemaRename : String := ""
  Counter : Int := 0
  ColumnMapFrom : List String := []
  OriginalTableColumns : ColumnList := ⟨[], []⟩
  Iteration : Int := 0
  ColumnMap : List Nat := []
  TableType : String := ""
  TableEngine : String := ""
  RowsEstimate : Int := 0
  Where : String := ""
  deriving DecidableEq, Repr

/-- Function `NewTable` of the source: fresh table with `Iteration = 0` and the filter
expression defaulted to the literal `"true"`; every other field keeps its Go
zero value. -/
def NewTable (schemaName : String) (tableName : String) : Table :=
  { TableSchema := schemaName
    TableName := tableName
    Iteration := 0
    Where := "true" }

/-- Structure `WhereContext` of the source: the original expression text, its parsed
tree, the referenced-field-to-ordinal map, and the is-the-default-`true` flag. -/
structure WhereContext where
  Where : String
  Ast : Node
  FieldsMap : List (String × Nat)
  IsDefault : Bool
  deriving DecidableEq, Repr

/-- Structure `TableContext` of the source. -/
structure TableContext where
  Table : Table
  WhereCtx : WhereContext
  DefChangedSent : Bool
  deriving DecidableEq, Repr

/-- Function `NewTableContext` of the source. -/
def NewTableContext (table : Table) (whereCtx : WhereContext) : TableContext :=
  { Table := table
    WhereCtx := whereCtx
    DefChangedSent := false }

/-- Structure `ColumnValues`: one decoded row — the raw column values by ordinal
(`AbstractValues` is `[]*interface{}` in Go; the pointers are immaterial,
a `nil` interface value is `GoValue.vNull`). -/
structure ColumnValues where
  AbstractValues : List GoValue
  deriving DecidableEq, Repr

/-- Errors returned by the filtering core.  Each constructor carries the
arguments of the corresponding `fmt.Errorf` of the source:
* `parseErr`: a parse failure bubbled up from `expr.ParseExpression`;
* `badWhereField`: `"bad where for table %v.%v: field %v does not exist.
  known fields: %v"` (schema, table name, field, the Ordinals map);
* `noEnoughColumns`: `"cannot eval where predicate: no enough columns
  (%v < %v)"` (the row width and the offending ordinal);
* `expectBytes`: `"where_predicate. expect []byte for TextColumnType, but
  got %T"` (the offending raw value);
* `indexPanic`: the Go runtime panic raised by
  `t.Table.OriginalTableColumns.ColumnList()[idx]` when `idx` is out of the
  column list's range (not a returned error in Go, modelled as a distinct
  abnormal outcome);
* `evalFailed`: `"cannot eval where predicate with the row value"`;
* `notBool`: `"where predicate does not eval to bool"`. -/
inductive GoErr where
  | parseErr (msg : String)
  | badWhereField (tableSchema tableName field : String) (known : List (String × Nat))
  | noEnoughColumns (nCols idx : Nat)
  | expectBytes (got : GoValue)
  | indexPanic (idx len : Nat)
  | evalFailed
  | notBool
  deriving DecidableEq, Repr

/-! ## `WhereTrue` -/

/-- The per-binding coercion step of `WhereTrue` (source lines 84–99): a `nil`
raw value is bound as-is; otherwise the column's declared type is consulted —
for `TextColumnType` a `[]byte` value is decoded to the Go string of the same
bytes and anything else is the `expectBytes` error; every other column kind
binds the raw value unchanged. -/
def coerceValue (cols : List Column) (idx : Nat) (rawValue : GoValue) : Except GoErr GoValue :=
  if rawValue = .vNull then
    .ok rawValue
  else
    match cols.get? idx with
    | none => .error (.indexPanic idx cols.length)
    | some col =>
      match col.ColType with
      | .TextColumnType =>
        match rawValue with
        | .vBytes bs => .ok (.vStr bs)
        | _ => .error (.expectBytes rawValue)
      | _ => .ok rawValue

/-- The binding loop of `WhereTrue` (source lines 76–102): for every
`(field, idx)` of the `FieldsMap`, check the row is wide enough
(`idx >= nCols` is the `noEnoughColumns` error), read the raw value, coerce
it, and write it into the evaluation environment `m`. -/
def bindLoop (t : TableContext) (values : ColumnValues) :
    List (String × Nat) → List (String × GoValue) → Except GoErr (List (String × GoValue))
  | [], m => .ok m
  | (field, idx) :: rest, m =>
    let nCols := values.AbstractValues.length
    if h : nCols ≤ idx then
      .error (.noEnoughColumns nCols idx)
    else
      let rawValue := values.AbstractValues.get ⟨idx, Nat.lt_of_not_le h⟩
      match coerceValue t.Table.OriginalTableColumns.Columns idx rawValue with
      | .error e => .error e
      | .ok value => bindLoop t values rest (assocSet m field value)

/-- Function `WhereTrue` of the source: bind the referenced fields of the row into an
environment, evaluate the compiled tree, and demand a boolean result. -/
def WhereTrue (t : TableContext) (values : ColumnValues) : Except GoErr Bool :=
  match bindLoop t values t.WhereCtx.FieldsMap [] with
  | .error e => .error e
  | .ok m =>
    match vmEval m t.WhereCtx.Ast with
    | none => .error .evalFailed
    | some val =>
      match val with
      | .vBool r => .ok r
      | _ => .error .notBool

/-- State-passing rendering of the binding loop: the Go method receives the
`TableContext` and the row through pointers, so any assignment to them in the
source would show up here as an updated state component.  The source contains
only reads, hence the state is merely threaded through. -/
def bindLoopM (entries : List (String × Nat)) (m : List (String × GoValue))
    (s : TableContext × ColumnValues) :
    Except GoErr (List (String × GoValue)) × (TableContext × ColumnValues) :=
  match entries with
  | [] => (.ok m, s)
  | (field, idx) :: rest =>
    let nCols := s.2.AbstractValues.length
    if h : nCols ≤ idx then
      (.error (.noEnoughColumns nCols idx), s)
    else
      let rawValue := s.2.AbstractValues.get ⟨idx, Nat.lt_of_not_le h⟩
      match coerceValue s.1.Table.OriginalTableColumns.Columns idx rawValue with
      | .error e => (.error e, s)
      | .ok value => bindLoopM rest (assocSet m field value) s

/-- State-passing rendering of `WhereTrue` (see `bindLoopM`). -/
def WhereTrueM (s : TableContext × ColumnValues) :
    Except GoErr Bool × (TableContext × ColumnValues) :=
  match bindLoopM s.1.WhereCtx.FieldsMap [] s with
  | (.error e, s2) => (.error e, s2)
  | (.ok m, s2) =>
    match vmEval m s2.1.WhereCtx.Ast with
    | none => (.error .evalFailed, s2)
    | some (.vBool r) => (.ok r, s2)
    | some _ => (.error .notBool, s2)

/-! ## `NewWhereCtx` -/

/-- The field-resolution loop of `NewWhereCtx` (source lines 130–144): for
every identifier of the tree in order, skip it when its case-folded text is
the reserved `true`/`false` (qlbridge limitation) or when it is already
mapped; otherwise resolve it against `Ordinals` — an unresolved identifier is
the `badWhereField` error, a resolved one is appended to the map. -/
def resolveFields (table : Table) :
    List String → List (String × Nat) → Except GoErr (List (String × Nat))
  | [], fieldsMap => .ok fieldsMap
  | field :: rest, fieldsMap =>
    let escapedFieldName := strToLower field
    if escapedFieldName = "true" ∨ escapedFieldName = "false" then
      resolveFields table rest fieldsMap
    else
      match alookup fieldsMap field with
      | some _ => resolveFields table rest fieldsMap
      | none =>
        match alookup table.OriginalTableColumns.Ordinals field with
        | none =>
          .error (.badWhereField table.TableSchema table.TableName field
            table.OriginalTableColumns.Ordinals)
        | some ord => resolveFields table rest (fieldsMap ++ [(field, ord)])

/-- Function `NewWhereCtx` of the source: parse the expression, resolve every
referenced identifier, and set `IsDefault` iff the case-folded expression
text is exactly `"true"`. -/
def NewWhereCtx (whereStr : String) (table : Table) : Except GoErr WhereContext :=
  match ParseExpression whereStr with
  | .error e => .error (.parseErr e)
  | .ok ast =>
    match resolveFields table (FindAllIdentityField ast) [] with
    | .error e => .error e
    | .ok fieldsMap =>
      .ok { Where := whereStr
            Ast := ast
            FieldsMap := fieldsMap
            IsDefault := decide (strToLower whereStr = "true") }

/-! ## Concrete fixtures -/

/-- A table `db.t` with one column `status` (ordinal 0). -/
def tblStatus : Table :=
  { TableSchema := "db"
    TableName := "t"
    OriginalTableColumns := ⟨[⟨"status", .VarcharColumnType⟩], [("status", 0)]⟩
    Where := "true" }

/-- A table `db.t2` with one column `id` and no `status` column. -/
def tblNoStatus : Table :=
  { TableSchema := "db"
    TableName := "t2"
    OriginalTableColumns := ⟨[⟨"id", .IntColumnType⟩], [("id", 0)]⟩
    Where := "status = 'x'" }

/-- A table `db.people` with columns `id`, `age` and a large-text `bio`. -/
def tblAge : Table :=
  { TableSchema := "db"
    TableName := "people"
    OriginalTableColumns :=
      ⟨[⟨"id", .IntColumnType⟩, ⟨"age", .IntColumnType⟩, ⟨"bio", .TextColumnType⟩],
       [("id", 0), ("age", 1), ("bio", 2)]⟩
    Where := "age > 30" }

/-- Parse tree of `status = 'x'`. -/
def astStatusLower : Node := .binOp .opEq (.ident "status") (.lit (.vStr (strBytes "x")))

/-- Parse tree of `age > 30`. -/
def astAgeGt30 : Node := .binOp .opGt (.ident "age") (.lit (.vInt 30))

/-- Compiled predicate of `status = 'x'` over `tblStatus`. -/
def wStatusLower : WhereContext :=
  { Where := "status = 'x'", Ast := astStatusLower, FieldsMap := [("status", 0)], IsDefault := false }

/-- Compiled predicate of `age > 30` over `tblAge`. -/
def wAge : WhereContext :=
  { Where := "age > 30", Ast := astAgeGt30, FieldsMap := [("age", 1)], IsDefault := false }

/-- Compiled predicate of the default filter `"true"`. -/
def wTrueDefault : WhereContext :=
  { Where := "true", Ast := .ident "true", FieldsMap := [], IsDefault := true }

/-- Compiled predicate of the bare word `TRUE`. -/
def wTRUEctx : WhereContext :=
  { Where := "TRUE", Ast := .ident "TRUE", FieldsMap := [], IsDefault := true }

/-- The `IsDefault` flag of a compilation result, when it succeeded. -/
def isDefaultOf : Except GoErr WhereContext → Option Bool
  | .ok w => some w.IsDefault
  | .error _ => none

/-! ## Helper lemmas -/

theorem alookup_mem {α : Type} :
    ∀ (l : List (String × α)) (k : String) (v : α), alookup l k = some v → (k, v) ∈ l := by
  intro l
  induction l with
  | nil => intro k v h; simp [alookup] at h
  | cons p rest ih =>
    intro k v h
    obtain ⟨k0, v0⟩ := p
    simp only [alookup] at h
    by_cases hk : k0 = k
    · rw [if_pos hk] at h
      injection h with h2
      subst hk; subst h2
      exact List.mem_cons_self _ _
    · rw [if_neg hk] at h
      exact List.mem_cons_of_mem _ (ih k v h)

theorem bindLoop_err (t : TableContext) (values : ColumnValues) :
    ∀ (entries : List (String × Nat)) (m : List (String × GoValue))
      (f : String) (idx : Nat), (f, idx) ∈ entries →
      values.AbstractValues.length ≤ idx →
      ∃ e, bindLoop t values entries m = .error e := by
  intro entries
  induction entries with
  | nil => intro m f idx hmem; simp at hmem
  | cons p rest ih =>
    intro m f idx hmem hshort
    obtain ⟨g, j⟩ := p
    by_cases hj : values.AbstractValues.length ≤ j
    · exact ⟨.noEnoughColumns values.AbstractValues.length j, by simp [bindLoop, hj]⟩
    · have hfr : (f, idx) ∈ rest := by
        rcases List.mem_cons.mp hmem with h | h
        · injection h with h1 h2; subst h2; exact absurd hshort hj
        · exact h
      cases hc : coerceValue t.Table.OriginalTableColumns.Columns j
          (values.AbstractValues.get ⟨j, Nat.lt_of_not_le hj⟩) with
      | error e => exact ⟨e, by simp only [bindLoop]; rw [dif_neg hj, hc]⟩
      | ok v =>
        obtain ⟨e, he⟩ := ih (assocSet m g v) f idx hfr hshort
        exact ⟨e, by simp only [bindLoop]; rw [dif_neg hj, hc]; exact he⟩

theorem bindLoopM_eq (s : TableContext × ColumnValues) :
    ∀ (entries : List (String × Nat)) (m : List (String × GoValue)),
      bindLoopM entries m s = (bindLoop s.1 s.2 entries m, s) := by
  intro entries
  induction entries with
  | nil => intro m; rfl
  | cons p rest ih =>
    intro m
    obtain ⟨g, j⟩ := p
    by_cases hj : s.2.AbstractValues.length ≤ j
    · simp [bindLoopM, bindLoop, hj]
    · cases hc : coerceValue s.1.Table.OriginalTableColumns.Columns j
          (s.2.AbstractValues.get ⟨j, Nat.lt_of_not_le hj⟩) with
      | error e =>
        simp only [bindLoopM, bindLoop]
        rw [dif_neg hj, dif_neg hj, hc]
      | ok v =>
        simp only [bindLoopM, bindLoop]
        rw [dif_neg hj, dif_neg hj, hc]
        exact ih (assocSet m g v)

theorem resolveFields_sound (table : Table) :
    ∀ (fields : List String) (acc fm : List (String × Nat)),
      (∀ f i, (f, i) ∈ acc →
        alookup table.OriginalTableColumns.Ordinals f = some i ∧
        strToLower f ≠ "true" ∧ strToLower f ≠ "false") →
      resolveFields table fields acc = .ok fm →
      ∀ f i, (f, i) ∈ fm →
        alookup table.OriginalTableColumns.Ordinals f = some i ∧
        strToLower f ≠ "true" ∧ strToLower f ≠ "false" := by
  intro fields
  induction fields with
  | nil =>
    intro acc fm hacc h
    simp only [resolveFields] at h
    injection h with h2
    subst h2
    exact hacc
  | cons g rest ih =>
    intro acc fm hacc h
    by_cases hres : (strToLower g = "true" ∨ strToLower g = "false")
    · rw [show resolveFields table (g :: rest) acc = resolveFields table rest acc by
        simp [resolveFields, hres]] at h
      exact ih acc fm hacc h
    · cases halo : alookup acc g with
      | some v =>
        rw [show resolveFields table (g :: rest) acc = resolveFields table rest acc by
          simp [resolveFields, hres, halo]] at h
        exact ih acc fm hacc h
      | none =>
        cases hord : alookup table.OriginalTableColumns.Ordinals g with
        | none =>
          rw [show resolveFields table (g :: rest) acc = .error
            (.badWhereField table.TableSchema table.TableName g
              table.OriginalTableColumns.Ordinals) by
            simp [resolveFields, hres, halo, hord]] at h
          cases h
        | some ord =>
          rw [show resolveFields table (g :: rest) acc =
              resolveFields table rest (acc ++ [(g, ord)]) by
            simp [resolveFields, hres, halo, hord]] at h
          refine ih (acc ++ [(g, ord)]) fm ?_ h
          intro f i hmem
          rcases List.mem_append.mp hmem with hm | hm
          · exact hacc f i hm
          · simp only [List.mem_singleton, Prod.mk.injEq] at hm
            obtain ⟨h1, h2⟩ := hm
            subst h1; subst h2
            push_neg at hres
            exact ⟨hord, hres.1, hres.2⟩

theorem resolveFields_unresolved (table : Table) :
    ∀ (fields : List String) (acc : List (String × Nat)),
      (∀ g i, (g, i) ∈ acc → alookup table.OriginalTableColumns.Ordinals g = some i) →
      ∀ f, f ∈ fields →
        ¬(strToLower f = "true" ∨ strToLower f = "false") →
        alookup table.OriginalTableColumns.Ordinals f = none →
        ∃ f2, f2 ∈ fields ∧
          ¬(strToLower f2 = "true" ∨ strToLower f2 = "false") ∧
          alookup table.OriginalTableColumns.Ordinals f2 = none ∧
          resolveFields table fields acc = .error
            (.badWhereField table.TableSchema table.TableName f2
              table.OriginalTableColumns.Ordinals) := by
  intro fields
  induction fields with
  | nil => intro acc _ f hf; simp at hf
  | cons g rest ih =>
    intro acc hacc f hf hnr hno
    by_cases hres : (strToLower g = "true" ∨ strToLower g = "false")
    · have hfr : f ∈ rest := by
        rcases List.mem_cons.mp hf with h | h
        · subst h; exact absurd hres hnr
        · exact h
      obtain ⟨f2, m2, r2, n2, e2⟩ := ih acc hacc f hfr hnr hno
      refine ⟨f2, List.mem_cons_of_mem _ m2, r2, n2, ?_⟩
      rw [show resolveFields table (g :: rest) acc = resolveFields table rest acc by
        simp [resolveFields, hres]]
      exact e2
    · cases halo : alookup acc g with
      | some v =>
        have hg : alookup table.OriginalTableColumns.Ordinals g = some v :=
          hacc g v (alookup_mem acc g v halo)
        have hfr : f ∈ rest := by
          rcases List.mem_cons.mp hf with h | h
          · subst h; rw [hg] at hno; cases hno
          · exact h
        obtain ⟨f2, m2, r2, n2, e2⟩ := ih acc hacc f hfr hnr hno
        refine ⟨f2, List.mem_cons_of_mem _ m2, r2, n2, ?_⟩
        rw [show resolveFields table (g :: rest) acc = resolveFields table rest acc by
          simp [resolveFields, hres, halo]]
        exact e2
      | none =>
        cases hord : alookup table.OriginalTableColumns.Ordinals g with
        | none =>
          refine ⟨g, List.mem_cons_self _ _, hres, hord, ?_⟩
          simp [resolveFields, hres, halo, hord]
        | some ord =>
          have hfr : f ∈ rest := by
            rcases List.mem_cons.mp hf with h | h
            · subst h; rw [hord] at hno; cases hno
            · exact h
          have hacc2 : ∀ g2 i2, (g2, i2) ∈ acc ++ [(g, ord)] →
              alookup table.OriginalTableColumns.Ordinals g2 = some i2 := by
            intro g2 i2 hmem
            rcases List.mem_append.mp hmem with hm | hm
            · exact hacc g2 i2 hm
            · simp only [List.mem_singleton, Prod.mk.injEq] at hm
              obtain ⟨h1, h2⟩ := hm
              subst h1; subst h2
              exact hord
          obtain ⟨f2, m2, r2, n2, e2⟩ := ih (acc ++ [(g, ord)]) hacc2 f hfr hnr hno
          refine ⟨f2, List.mem_cons_of_mem _ m2, r2, n2, ?_⟩
          rw [show resolveFields table (g :: rest) acc =
              resolveFields table rest (acc ++ [(g, ord)]) by
            simp [resolveFields, hres, halo, hord]]
          exact e2

/-! ## Claims -/

/-- C1 (counterexample): field resolution is NOT case-insensitive.  Over the
table `db.t` whose column list contains the (lower-case) column `status`,
compiling `Status = 'x'` fails with an unknown-field error — the loop of
`NewWhereCtx` case-folds the identifier only for the `true`/`false` check and
resolves `Ordinals[field]` with the identifier's original spelling — while
`status = 'x'` compiles and binds ordinal 0.  This falsifies the claim that
both compile to the same ordinal binding. -/
theorem where_field_case_cex :
    NewWhereCtx "Status = 'x'" tblStatus =
      .error (.badWhereField "db" "t" "Status" [("status", 0)]) ∧
    NewWhereCtx "status = 'x'" tblStatus = .ok wStatusLower ∧
    alookup wStatusLower.FieldsMap "status" = some 0 :=
  ⟨rfl, rfl, rfl⟩

/-- C1 (amended): field resolution is case-sensitive.  For every table whose
`Ordinals` map binds the key `status` (the spec keeps `Ordinals` keys
lower-cased) and has no key `Status`, compiling `status = 'x'` succeeds and
binds the column's ordinal, while compiling `Status = 'x'` fails with the
unknown-field error. -/
theorem where_field_case_sensitive (t : Table) (k : Nat)
    (hlow : alookup t.OriginalTableColumns.Ordinals "status" = some k)
    (hup : alookup t.OriginalTableColumns.Ordinals "Status" = none) :
    NewWhereCtx "status = 'x'" t =
      .ok { Where := "status = 'x'", Ast := astStatusLower,
            FieldsMap := [("status", k)], IsDefault := false } ∧
    NewWhereCtx "Status = 'x'" t =
      .error (.badWhereField t.TableSchema t.TableName "Status"
        t.OriginalTableColumns.Ordinals) := by
  constructor
  · have hp : ParseExpression "status = 'x'" = .ok astStatusLower := rfl
    have hnr : ¬(strToLower "status" = "true" ∨ strToLower "status" = "false") := by decide
    have hr : resolveFields t ["status"] [] = .ok [("status", k)] := by
      simp [resolveFields, hnr, alookup, hlow]
    simp [NewWhereCtx, hp, FindAllIdentityField, astStatusLower, hr]
    decide
  · have hp : ParseExpression "Status = 'x'" =
        .ok (.binOp .opEq (.ident "Status") (.lit (.vStr (strBytes "x")))) := rfl
    have hnr : ¬(strToLower "Status" = "true" ∨ strToLower "Status" = "false") := by decide
    have hr : resolveFields t ["Status"] [] = .error
        (.badWhereField t.TableSchema t.TableName "Status"
          t.OriginalTableColumns.Ordinals) := by
      simp [resolveFields, hnr, alookup, hup]
    simp [NewWhereCtx, hp, FindAllIdentityField, hr]

/-- C1 (witness for the amended claim) at the concrete table `db.t`. -/
theorem where_field_case_sensitive_w :
    alookup tblStatus.OriginalTableColumns.Ordinals "status" = some 0 ∧
    alookup tblStatus.OriginalTableColumns.Ordinals "Status" = none ∧
    (NewWhereCtx "status = 'x'" tblStatus =
      .ok { Where := "status = 'x'", Ast := astStatusLower,
            FieldsMap := [("status", 0)], IsDefault := false } ∧
     NewWhereCtx "Status = 'x'" tblStatus =
      .error (.badWhereField tblStatus.TableSchema tblStatus.TableName "Status"
        tblStatus.OriginalTableColumns.Ordinals)) :=
  ⟨by decide, by decide, where_field_case_sensitive tblStatus 0 (by decide) (by decide)⟩

/-- C2: for every table whose filter is unset — `NewTable` defaults it to the
literal `"true"` — or literally `"true"`, compilation yields the empty
`FieldsMap` (so `WhereTrue` reads no column value of the row) and `WhereTrue`
returns `true` with no error on every row of any width and contents. -/
theorem whereTrue_default_true :
    (∀ schemaName tableName, (NewTable schemaName tableName).Where = "true") ∧
    (∀ t : Table, t.Where = "true" →
      NewWhereCtx t.Where t = .ok wTrueDefault ∧
      wTrueDefault.FieldsMap = [] ∧
      ∀ (d : Bool) (values : ColumnValues),
        WhereTrue ⟨t, wTrueDefault, d⟩ values = .ok true) := by
  refine ⟨fun _ _ => rfl, fun t ht => ?_⟩
  rw [ht]
  exact ⟨rfl, rfl, fun d values => rfl⟩

/-- C2 (witness): the default filter of a fresh table accepts a concrete row. -/
theorem whereTrue_default_true_w :
    (NewTable "db" "tbl").Where = "true" ∧
    WhereTrue ⟨NewTable "db" "tbl", wTrueDefault, false⟩ ⟨[.vInt 1]⟩ = .ok true :=
  ⟨whereTrue_default_true.1 "db" "tbl",
   (whereTrue_default_true.2 (NewTable "db" "tbl")
     (whereTrue_default_true.1 "db" "tbl")).2.2 false ⟨[.vInt 1]⟩⟩

/-- C3: if some `(field, ordinal)` pair of the `FieldsMap` has its ordinal out
of the row's range (`ordinal ≥` number of columns), `WhereTrue` returns an
error — the binding loop raises `noEnoughColumns` when it reaches the pair,
and every other exit of the loop before it is also an error — never a plain
`(false, no-error)` reject. -/
theorem whereTrue_short_row_errors (t : TableContext) (values : ColumnValues)
    (f : String) (idx : Nat) (hmem : (f, idx) ∈ t.WhereCtx.FieldsMap)
    (hshort : values.AbstractValues.length ≤ idx) :
    ∃ e, WhereTrue t values = .error e := by
  obtain ⟨e, he⟩ := bindLoop_err t values t.WhereCtx.FieldsMap [] f idx hmem hshort
  exact ⟨e, by unfold WhereTrue; rw [he]⟩

/-- C3 (witness): `age > 30` compiled to ordinal 1, applied to a row with a
single column. -/
theorem whereTrue_short_row_errors_w :
    ("age", 1) ∈ wAge.FieldsMap ∧
    (ColumnValues.mk [.vInt 7]).AbstractValues.length ≤ 1 ∧
    ∃ e, WhereTrue ⟨tblAge, wAge, false⟩ ⟨[.vInt 7]⟩ = .error e :=
  ⟨by decide, by decide,
   whereTrue_short_row_errors ⟨tblAge, wAge, false⟩ ⟨[.vInt 7]⟩ "age" 1
     (by decide) (by decide)⟩

/-- C4: the binding step of `WhereTrue`: a null raw value binds as null (the
column type is not even consulted); for a column of the large-text/blob kind
`TextColumnType` a byte-sequence value binds as the text of those bytes and a
non-null non-byte-sequence value is the `expectBytes` binding error; a value
of a column of any other kind binds unchanged. -/
theorem coerce_characterization (cols : List Column) (idx : Nat) (c : Column)
    (hc : cols.get? idx = some c) :
    coerceValue cols idx .vNull = .ok .vNull ∧
    (c.ColType = .TextColumnType →
      (∀ bs, coerceValue cols idx (.vBytes bs) = .ok (.vStr bs)) ∧
      (∀ v, v ≠ .vNull → (∀ bs, v ≠ .vBytes bs) →
        coerceValue cols idx v = .error (.expectBytes v))) ∧
    (c.ColType ≠ .TextColumnType → ∀ v, v ≠ .vNull →
      coerceValue cols idx v = .ok v) := by
  obtain ⟨nm, ct⟩ := c
  rw [List.get?_eq_getElem?] at hc
  refine ⟨by simp [coerceValue], fun htext => ⟨fun bs => ?_, fun v hvn hvb => ?_⟩,
    fun hnt v hvn => ?_⟩
  · have hct : ct = ColumnType.TextColumnType := htext
    subst hct
    simp [coerceValue, hc]
  · have hct : ct = ColumnType.TextColumnType := htext
    subst hct
    cases v with
    | vNull => exact absurd rfl hvn
    | vBytes bs => exact absurd rfl (hvb bs)
    | vBool b => simp [coerceValue, hc]
    | vInt n => simp [coerceValue, hc]
    | vStr bs => simp [coerceValue, hc]
  · cases ct with
    | TextColumnType => exact absurd rfl hnt
    | UnknownColumnType => simp [coerceValue, hc, hvn]
    | IntColumnType => simp [coerceValue, hc, hvn]
    | VarcharColumnType => simp [coerceValue, hc, hvn]
    | DateColumnType => simp [coerceValue, hc, hvn]

/-- C4 (witness): the text column `bio` of `db.people` — bytes are decoded,
an integer raw value is a binding error. -/
theorem coerce_characterization_w :
    tblAge.OriginalTableColumns.Columns.get? 2 = some ⟨"bio", .TextColumnType⟩ ∧
    coerceValue tblAge.OriginalTableColumns.Columns 2 (.vBytes (strBytes "hi")) =
      .ok (.vStr (strBytes "hi")) ∧
    coerceValue tblAge.OriginalTableColumns.Columns 2 (.vInt 3) =
      .error (.expectBytes (.vInt 3)) :=
  ⟨by decide,
   ((coerce_characterization tblAge.OriginalTableColumns.Columns 2
       ⟨"bio", .TextColumnType⟩ (by decide)).2.1 rfl).1 (strBytes "hi"),
   ((coerce_characterization tblAge.OriginalTableColumns.Columns 2
       ⟨"bio", .TextColumnType⟩ (by decide)).2.1 rfl).2 (.vInt 3)
     (fun h => GoValue.noConfusion h) (fun bs h => GoValue.noConfusion h)⟩

/-- C5: `WhereTrue` returns `ok b` exactly when the binding loop succeeded
and the tree evaluated to the boolean `b`; hence an evaluation failure or a
non-boolean result is always reported as an error and is never coerced to a
plain `(false, no-error)` reject, and an error-free result is exactly the
predicate's value. -/
theorem whereTrue_result_iff_eval (t : TableContext) (values : ColumnValues) (b : Bool) :
    WhereTrue t values = .ok b ↔
      ∃ m, bindLoop t values t.WhereCtx.FieldsMap [] = .ok m ∧
        vmEval m t.WhereCtx.Ast = some (.vBool b) := by
  unfold WhereTrue
  cases hb : bindLoop t values t.WhereCtx.FieldsMap [] with
  | error e => simp [hb]
  | ok m =>
    cases he : vmEval m t.WhereCtx.Ast with
    | none => simp [he]
    | some v => cases v <;> simp [he]

/-- C6: a parseable filter whose tree references an identifier that is not a
reserved `true`/`false` literal and is absent from the table's `Ordinals` map
makes `NewWhereCtx` fail with the `badWhereField` error naming such an
unresolved field, the owning table's schema and name, and the table's known
fields (its `Ordinals` map). -/
theorem newWhereCtx_unknown_field_error (whereStr : String) (table : Table)
    (ast : Node) (hparse : ParseExpression whereStr = .ok ast)
    (f : String) (hf : f ∈ FindAllIdentityField ast)
    (hnr : ¬(strToLower f = "true" ∨ strToLower f = "false"))
    (hno : alookup table.OriginalTableColumns.Ordinals f = none) :
    ∃ f2, f2 ∈ FindAllIdentityField ast ∧
      ¬(strToLower f2 = "true" ∨ strToLower f2 = "false") ∧
      alookup table.OriginalTableColumns.Ordinals f2 = none ∧
      NewWhereCtx whereStr table = .error
        (.badWhereField table.TableSchema table.TableName f2
          table.OriginalTableColumns.Ordinals) := by
  obtain ⟨f2, h1, h2, h3, h4⟩ :=
    resolveFields_unresolved table (FindAllIdentityField ast) [] (by simp) f hf hnr hno
  exact ⟨f2, h1, h2, h3, by simp [NewWhereCtx, hparse, h4]⟩

/-- C6 (witness): compiling `status = 'x'` against `db.t2`, which only has an
`id` column. -/
theorem newWhereCtx_unknown_field_error_w :
    ParseExpression "status = 'x'" = .ok astStatusLower ∧
    "status" ∈ FindAllIdentityField astStatusLower ∧
    ¬(strToLower "status" = "true" ∨ strToLower "status" = "false") ∧
    alookup tblNoStatus.OriginalTableColumns.Ordinals "status" = none ∧
    ∃ f2, f2 ∈ FindAllIdentityField astStatusLower ∧
      ¬(strToLower f2 = "true" ∨ strToLower f2 = "false") ∧
      alookup tblNoStatus.OriginalTableColumns.Ordinals f2 = none ∧
      NewWhereCtx "status = 'x'" tblNoStatus = .error
        (.badWhereField tblNoStatus.TableSchema tblNoStatus.TableName f2
          tblNoStatus.OriginalTableColumns.Ordinals) :=
  ⟨rfl, by decide, by decide, by decide,
   newWhereCtx_unknown_field_error "status = 'x'" tblNoStatus astStatusLower rfl
     "status" (by decide) (by decide) (by decide)⟩

/-- C7 (counterexample): the source sets `IsDefault` from
`strings.ToLower(where) == "true"` WITHOUT trimming: the accepted expression
`"true "` (trailing blank) gets `IsDefault = false` although its case-folded,
whitespace-trimmed text is exactly `"true"`.  This falsifies the claim that
`IsDefault` is true iff the case-folded TRIMMED text is `"true"`. -/
theorem isDefault_trim_cex :
    isDefaultOf (NewWhereCtx "true " tblStatus) = some false ∧
    strToLower (strTrim "true ") = "true" :=
  ⟨rfl, rfl⟩

/-- C7 (amended): for every expression accepted by `NewWhereCtx`, the
returned `IsDefault` flag is true iff the case-folded (untrimmed) expression
text is exactly `"true"`. -/
theorem isDefault_iff_ci_eq_true (whereStr : String) (table : Table)
    (w : WhereContext) (h : NewWhereCtx whereStr table = .ok w) :
    w.IsDefault = true ↔ strToLower whereStr = "true" := by
  unfold NewWhereCtx at h
  cases hp : ParseExpression whereStr with
  | error e => simp [hp] at h
  | ok ast =>
    simp only [hp] at h
    cases hr : resolveFields table (FindAllIdentityField ast) [] with
    | error e => simp [hr] at h
    | ok fm =>
      simp only [hr] at h
      injection h with h2
      subst h2
      simp [decide_eq_true_eq]

/-- C7 (witness for the amended claim): the bare word `TRUE` is accepted and
`IsDefault` is set (case-folding, no trimming involved). -/
theorem isDefault_iff_ci_eq_true_w :
    NewWhereCtx "TRUE" tblStatus = .ok wTRUEctx ∧
    (wTRUEctx.IsDefault = true ↔ strToLower "TRUE" = "true") :=
  ⟨rfl, isDefault_iff_ci_eq_true "TRUE" tblStatus wTRUEctx rfl⟩

/-- C8: every `(field, ordinal)` pair of a successfully compiled
`WhereContext`'s `FieldsMap` is present verbatim in the owning table's
`Ordinals` map with that very ordinal, and no key case-folds to the reserved
literals `true`/`false`. -/
theorem fieldsMap_resolved_and_unreserved (whereStr : String) (table : Table)
    (w : WhereContext) (h : NewWhereCtx whereStr table = .ok w) :
    ∀ f i, (f, i) ∈ w.FieldsMap →
      alookup table.OriginalTableColumns.Ordinals f = some i ∧
      strToLower f ≠ "true" ∧ strToLower f ≠ "false" := by
  unfold NewWhereCtx at h
  cases hp : ParseExpression whereStr with
  | error e => simp [hp] at h
  | ok ast =>
    simp only [hp] at h
    cases hr : resolveFields table (FindAllIdentityField ast) [] with
    | error e => simp [hr] at h
    | ok fm =>
      simp only [hr] at h
      injection h with h2
      subst h2
      exact resolveFields_sound table (FindAllIdentityField ast) [] fm (by simp) hr

/-- C8 (witness): the compiled `status = 'x'` over `db.t`. -/
theorem fieldsMap_resolved_and_unreserved_w :
    NewWhereCtx "status = 'x'" tblStatus = .ok wStatusLower ∧
    ("status", 0) ∈ wStatusLower.FieldsMap ∧
    (alookup tblStatus.OriginalTableColumns.Ordinals "status" = some 0 ∧
     strToLower "status" ≠ "true" ∧ strToLower "status" ≠ "false") :=
  ⟨rfl, by decide,
   fieldsMap_resolved_and_unreserved "status = 'x'" tblStatus wStatusLower rfl
     "status" 0 (by decide)⟩

/-- C9: `WhereTrue` is a pure observer.  In the state-passing rendering of
the method — where any assignment through the `TableContext` or row pointers
would surface as an updated state — the final state is exactly the initial
one (so the table's `Counter` and `Iteration`, the `DefChangedSent` flag, the
`WhereContext` and the row values are all unchanged), and the first component
is the pure `WhereTrue` result. -/
theorem whereTrueM_frame (s : TableContext × ColumnValues) :
    WhereTrueM s = (WhereTrue s.1 s.2, s) := by
  unfold WhereTrueM WhereTrue
  rw [bindLoopM_eq s s.1.WhereCtx.FieldsMap []]
  cases bindLoop s.1 s.2 s.1.WhereCtx.FieldsMap [] with
  | error e => rfl
  | ok m =>
    dsimp only
    cases vmEval m s.1.WhereCtx.Ast with
    | none => rfl
    | some v => cases v <;> rfl

/-- C10: `NewTableContext` returns a context whose `DefChangedSent` flag is
false, so the first definition-changed notification check after a (re)compile
can fire. -/
theorem newTableContext_starts_unsent (table : Table) (whereCtx : WhereContext) :
    (NewTableContext table whereCtx).DefChangedSent = false :=
  rfl

end DtleFilter
